import Mathlib

/-!
Verification development for the Secret Santa server (src/server.js).

The server's in-memory stores are JavaScript `Map`s keyed by strings; we
model them as association lists with first-match lookup and
update-in-place-or-append insertion, matching `Map.get` / `Map.set`.
Assignment tables are plain JS objects keyed by guest names, built by
pairing each guest with the shuffled list entry at the same index; we model
them with the same association-list operations.
-/

/-- Model of JavaScript `Map.prototype.get` (and object property lookup):
first binding for the key, or none. -/
def mget {α : Type} : List (String × α) → String → Option α
  | [], _ => none
  | (k, v) :: rest, q => if k = q then some v else mget rest q

/-- Model of JavaScript `Map.prototype.set` (and object property assignment):
update the existing binding in place, or append a new one. -/
def mset {α : Type} : List (String × α) → String → α → List (String × α)
  | [], k, v => [(k, v)]
  | (k0, v0) :: rest, k, v =>
    if k0 = k then (k, v) :: rest else (k0, v0) :: mset rest k v

/-- The keys of a map model. -/
def mkeys {α : Type} (m : List (String × α)) : List String := m.map Prod.fst

/-- Characters removed by the server's sanitizer regex (server.js line 117):
left angle bracket, right angle bracket, double quote, apostrophe
(code point 39), ampersand. -/
def badChars : List Char := ['<', '>', '"', Char.ofNat 39, '&']

/-- Model of JavaScript `String.prototype.trim`: drop whitespace characters
from both ends. -/
def jsTrim (s : String) : String :=
  (((s.toList.dropWhile Char.isWhitespace).reverse.dropWhile
      Char.isWhitespace).reverse).asString

/-- Embedding of `sanitizeString` (server.js lines 115-118): trim, cap at
`maxLength` characters (JS `slice(0, maxLength)`), then delete the five
markup-unsafe characters. non-strings map to the empty string in the
source; the model takes strings only. -/
def sanitizeString (s : String) (maxLength : Nat) : String :=
  (((jsTrim s).toList.take maxLength).filter (fun c => ¬ c ∈ badChars)).asString

/-!
The assignment algorithm (server.js lines 287-310 and 349-372, identical in
both handlers): copy the guest list, run a Fisher-Yates shuffle driven by
`Math.random`, then repair fixed points in one left-to-right pass, and pair
`guests[i]` with `shuffled[i]`.

Randomness model: `Math.floor(Math.random() * (i + 1))` draws an arbitrary
index in `[0, i]`; we parameterize the algorithm by `rand : Nat → Nat` and
reduce the draw at step `i` to `rand i % (i + 1)`, so every sequence of
draws the source can make corresponds to some `rand`.
-/

/-- One JS destructuring swap `[a[i], a[j]] = [a[j], a[i]]` on a list: write
the old `j`-entry at `i` and the old `i`-entry at `j`; out-of-range indices
leave the list unchanged (unreachable in the source's loops). -/
def listSwap {α : Type} (l : List α) (i j : Nat) : List α :=
  match l[i]?, l[j]? with
  | some x, some y => (l.set i y).set j x
  | _, _ => l

/-- The Fisher-Yates loop of server.js lines 289-292, iterating the index
argument from `i` down to `1`. -/
def fyAux {α : Type} (rand : Nat → Nat) : Nat → List α → List α
  | 0, l => l
  | i + 1, l => fyAux rand i (listSwap l (i + 1) (rand (i + 1) % (i + 2)))

/-- The whole shuffle: iterate from `length - 1` down to `1`. -/
def fisherYates {α : Type} (l : List α) (rand : Nat → Nat) : List α :=
  fyAux rand (l.length - 1) l

/-- The repair loop body of server.js lines 294-302, at position `i` with
`fuel` iterations left: if `shuffled[i]` equals `guests[i]`, swap it with
the previous element when `i` is the last position and with the next
element otherwise, then advance. -/
def repairAux (g : List String) : List String → Nat → Nat → List String
  | s, _, 0 => s
  | s, i, fuel + 1 =>
    if i < s.length then
      if s[i]? = g[i]? then
        if i = s.length - 1 then repairAux g (listSwap s i (i - 1)) (i + 1) fuel
        else repairAux g (listSwap s i (i + 1)) (i + 1) fuel
      else repairAux g s (i + 1) fuel
    else s

/-- The full left-to-right repair pass over all positions. -/
def repairScan (g s : List String) : List String :=
  repairAux g s 0 s.length

/-- The assignment table built at server.js lines 304-307: pair each guest
with the (shuffled, repaired) entry at the same index. -/
def mkAssignTable (guests : List String) (rand : Nat → Nat) : List (String × String) :=
  guests.zip (repairScan guests (fisherYates guests rand))

/-!
Entities and the three mutating handlers (POST /api/parties,
POST /api/parties/:id/assign, GET /api/guest/:id/assignment).

Conventions of the embedding:
- The rate limiter is an excluded admission-control collaborator (spec
  section 1); handlers are modelled after its approval.
- `uuidv4()` results are passed in as explicit arguments (`pid`, `gids`);
  the canonical textual form of a random UUID is a 36-character string,
  which is recorded as a side condition on reachable states below.
- `new Date().toLocaleString(...)` is passed in as the `ts` argument.
- Failure responses are collapsed to their HTTP status code.
- `await saveData()` touches only the persistence layer (modelled
  separately below), never the three in-memory maps, so the handler models
  over the in-memory state omit the call.
-/

/-- A stored party record (server.js lines 200-216). -/
structure Party where
  id : String
  name : String
  budget : String
  criteria : String
  guests : List String
  createdAt : String
deriving DecidableEq, Repr

/-- A stored guest-link record (server.js line 23: guestId maps to
partyId and guestName). -/
structure GuestLink where
  partyId : String
  guestName : String
deriving DecidableEq, Repr

/-- The three in-memory stores (server.js lines 21-23). Assignment tables
are objects mapping guest name to recipient name. -/
structure St where
  parties : List (String × Party)
  assignments : List (String × List (String × String))
  guestLinks : List (String × GuestLink)
deriving DecidableEq, Repr

/-- The empty stores the process starts with. -/
def emptySt : St := ⟨[], [], []⟩

/-- Default base URL used to mint guest URLs (server.js line 12). -/
def baseUrl : String := "http://localhost:8003"

/-- Successful response of POST /api/parties (server.js lines 232-236):
party id, the guest-to-URL object, and the stored party. -/
structure CreateResp where
  partyId : String
  guestUrls : List (String × String)
  party : Party
deriving DecidableEq, Repr

/-- Payload of a successful POST /api/parties/:id/assign response. The
early-return branch at server.js lines 282-285 would echo whatever value
sits under the compound key, which in the stores' typing is a whole
assignment table, so the payload is either `assignment: partyAssignments[g]`
(possibly absent) or that echoed table. -/
inductive AssignVal where
  | val (v : Option String)
  | tableVal (t : List (String × String))
deriving DecidableEq, Repr

/-- Embedding of the POST /api/parties handler body (server.js lines
165-241). Validation failures and validator throws all surface as
status 400 through the catch block. `guests` is `none` when the request
body has no guests array. -/
def createParty (st : St) (name budget criteria : String)
    (guests : Option (List String)) (pid : String) (gids : List String)
    (ts : String) : St × Except Nat CreateResp :=
  match guests with
  | none => (st, .error 400)
  | some gl =>
    if name = "" ∨ gl.length < 2 then (st, .error 400)
    else if gl.length > 50 then (st, .error 400)
    else if sanitizeString name 100 = "" then (st, .error 400)
    else if gl.any (fun g => sanitizeString g 50 = "") then (st, .error 400)
    else
      let sguests := gl.map (fun g => sanitizeString g 50)
      if ¬ sguests.Nodup then (st, .error 400)
      else
        let party : Party :=
          ⟨pid, sanitizeString name 100, sanitizeString budget 50,
           sanitizeString criteria 500, sguests, ts⟩
        let links := sguests.zip gids
        let st' : St :=
          { st with
            parties := mset st.parties pid party,
            guestLinks :=
              links.foldl (fun m p => mset m p.2 ⟨pid, p.1⟩) st.guestLinks }
        (st', .ok ⟨pid, links.map (fun p => (p.1, baseUrl ++ "/guest/" ++ p.2)),
                   party⟩)

/-- Embedding of the POST /api/parties/:id/assign handler body (server.js
lines 253-322). The source guards table creation with
`if (!assignments.has(partyId))` and then re-reads `assignments.get(partyId)`,
which returns the table just stored when the guard fired; the two paths are
written out directly here, so the re-read after a store is the stored
table itself. -/
def assignByName (st : St) (partyId guestName : String) (rand : Nat → Nat) :
    St × Except Nat AssignVal :=
  if guestName = "" then (st, .error 400)
  else if sanitizeString guestName 50 = "" then (st, .error 400)
  else
    match mget st.parties partyId with
    | none => (st, .error 404)
    | some party =>
      if ¬ sanitizeString guestName 50 ∈ party.guests then (st, .error 400)
      else
        match mget st.assignments (partyId ++ "-" ++ sanitizeString guestName 50) with
        | some existing => (st, .ok (.tableVal existing))
        | none =>
          match mget st.assignments partyId with
          | some t => (st, .ok (.val (mget t (sanitizeString guestName 50))))
          | none =>
            ({ st with
               assignments :=
                 mset st.assignments partyId (mkAssignTable party.guests rand) },
             .ok (.val (mget (mkAssignTable party.guests rand)
                          (sanitizeString guestName 50))))

/-- Successful response body of GET /api/guest/:id/assignment (server.js
lines 378-386): a nested party view holding exactly name, budget and
criteria, the link's own guest name, and that guest's recipient. -/
structure LinkPartyView where
  name : String
  budget : String
  criteria : String
deriving DecidableEq, Repr

/-- The whole guest-link response record. -/
structure LinkResp where
  party : LinkPartyView
  guestName : String
  assignment : Option String
deriving DecidableEq, Repr

/-- Embedding of the GET /api/guest/:id/assignment handler body (server.js
lines 325-391), with the same guarded-creation-then-re-read structure
written out as two direct paths. -/
def assignByGuestLink (st : St) (gid : String) (rand : Nat → Nat) :
    St × Except Nat LinkResp :=
  if gid.length ≠ 36 then (st, .error 400)
  else
    match mget st.guestLinks gid with
    | none => (st, .error 404)
    | some link =>
      match mget st.parties link.partyId with
      | none => (st, .error 404)
      | some party =>
        match mget st.assignments link.partyId with
        | some t =>
          (st, .ok ⟨⟨party.name, party.budget, party.criteria⟩,
                    link.guestName, mget t link.guestName⟩)
        | none =>
          ({ st with
             assignments :=
               mset st.assignments link.partyId
                 (mkAssignTable party.guests rand) },
           .ok ⟨⟨party.name, party.budget, party.criteria⟩,
                link.guestName,
                mget (mkAssignTable party.guests rand) link.guestName⟩)

/-- One state-changing request, with its generated identifiers and random
draws as data. -/
inductive Op where
  | create (name budget criteria : String) (guests : Option (List String))
      (pid : String) (gids : List String) (ts : String)
  | assignN (pid gname : String) (rand : Nat → Nat)
  | assignL (gid : String) (rand : Nat → Nat)

/-- The state reached after one request. -/
def step (o : Op) (st : St) : St :=
  match o with
  | .create n b c gs pid gids ts => (createParty st n b c gs pid gids ts).1
  | .assignN pid g rand => (assignByName st pid g rand).1
  | .assignL gid rand => (assignByGuestLink st gid rand).1

/-- States reachable from a fresh process through the server's own
mutating requests. The side conditions on `create` record what `uuidv4()`
guarantees: generated identifiers are 36-character canonical UUID strings. -/
inductive Reachable : St → Prop where
  | init : Reachable emptySt
  | create (st : St) (n b c : String) (gs : Option (List String)) (pid : String)
      (gids : List String) (ts : String) :
      Reachable st → pid.length = 36 → (∀ g ∈ gids, g.length = 36) →
      Reachable (step (.create n b c gs pid gids ts) st)
  | assignN (st : St) (pid g : String) (rand : Nat → Nat) :
      Reachable st → Reachable (step (.assignN pid g rand) st)
  | assignL (st : St) (gid : String) (rand : Nat → Nat) :
      Reachable st → Reachable (step (.assignL gid rand) st)

/-- Key discipline maintained by the handlers: party keys are 36-character
UUID strings, and assignment-table keys are party keys. -/
def GoodKeys (st : St) : Prop :=
  (∀ k ∈ mkeys st.parties, k.length = 36) ∧
  (∀ k ∈ mkeys st.assignments, k.length = 36 ∧ k ∈ mkeys st.parties)

/-!
Persistence layer (server.js lines 26-112).

Files are modelled at the parse-result level: a file is absent, or present
with unparseable text, or present with text parsing to a JSON value. The
text codec itself (`JSON.stringify` / `JSON.parse`) is the external JSON
library; for the values the server stores (records of strings and string
lists) stringify-then-parse is the identity, so `saveData` writes the
serialized maps as parsed values directly.
-/

/-- JSON values, as produced by `JSON.parse`. -/
inductive JVal where
  | jnull
  | jbool (b : Bool)
  | jnum (n : Int)
  | jstr (s : String)
  | jarr (elems : List JVal)
  | jobj (fields : List (String × JVal))

/-- Model of `Object.entries`: own enumerable properties of the value.
`Object.entries(null)` throws a TypeError, modelled as `none`; arrays and
strings enumerate their indexed entries; numbers and booleans have none. -/
def objEntries : JVal → Option (List (String × JVal))
  | .jnull => none
  | .jbool _ => some []
  | .jnum _ => some []
  | .jstr s => some ((s.toList.enum).map (fun p => (toString p.1, JVal.jstr p.2.toString)))
  | .jarr xs => some ((xs.enum).map (fun p => (toString p.1, p.2)))
  | .jobj fs => some fs

/-- A storage file at the parse-result level: `none` is an absent file,
`some none` a present file whose text `JSON.parse` rejects, `some (some v)`
a present file parsing to `v`. -/
def FileSt : Type := Option (Option JVal)

/-- The value a store variable holds after server.js lines 30-57: an absent
file is read as a two-character empty-object text (the readFile catch),
which parses to the empty object, and a parse failure leaves the fallback
empty object in place (logged). -/
def parseFile : FileSt → JVal
  | none => .jobj []
  | some none => .jobj []
  | some (some v) => v

/-- The three stores as persisted values. -/
structure PSt where
  parties : List (String × JVal)
  assignments : List (String × JVal)
  guestLinks : List (String × JVal)

/-- Populate one store from entries via `forEach(([k, v]) => map.set(k, v))`
starting from the empty map a fresh process has. -/
def loadStore (es : List (String × JVal)) : List (String × JVal) :=
  es.foldl (fun m kv => mset m kv.1 kv.2) []

/-- Embedding of `loadData` (server.js lines 26-67) on the three files. The
three `Object.entries(...).forEach(...)` statements run in order at lines
59-61 inside one try block: if `Object.entries` throws on one store's
value, the outer catch fires, the error is logged, and the remaining
stores are left unpopulated — startup still completes. -/
def loadData (fp fa fg : FileSt) : PSt :=
  match objEntries (parseFile fp) with
  | none => ⟨[], [], []⟩
  | some ep =>
    match objEntries (parseFile fa) with
    | none => ⟨loadStore ep, [], []⟩
    | some ea =>
      match objEntries (parseFile fg) with
      | none => ⟨loadStore ep, loadStore ea, []⟩
      | some eg => ⟨loadStore ep, loadStore ea, loadStore eg⟩

/-- The three storage files. -/
structure FileSet where
  pFile : FileSt
  aFile : FileSt
  gFile : FileSt

/-- Full persistence state: in-memory maps, the three files, the backup
area, and the `saveInProgress` flag (server.js line 70). Backups are
(backup file name, copied content) pairs. -/
structure SysState where
  mem : PSt
  disk : FileSet
  backups : List (String × Option JVal)
  flag : Bool

/-- The backup copies taken at server.js lines 83-94: for each of the three
files that exists, copy its current content under a timestamped name; a
missing file is skipped silently. -/
def backupsOf (d : FileSet) (ts : String) : List (String × Option JVal) :=
  (match d.pFile with
   | none => []
   | some c => [("parties.json." ++ ts ++ ".backup", c)]) ++
  (match d.aFile with
   | none => []
   | some c => [("assignments.json." ++ ts ++ ".backup", c)]) ++
  (match d.gFile with
   | none => []
   | some c => [("guest_links.json." ++ ts ++ ".backup", c)])

/-- Embedding of `saveData` (server.js lines 71-112): if a save is already
in progress, return at once; otherwise back up the current files, then
overwrite all three files with the serialized in-memory maps, and clear
the flag. -/
def saveData (s : SysState) (ts : String) : SysState :=
  if s.flag then s
  else
    { mem := s.mem,
      disk := ⟨some (some (.jobj s.mem.parties)),
               some (some (.jobj s.mem.assignments)),
               some (some (.jobj s.mem.guestLinks))⟩,
      backups := s.backups ++ backupsOf s.disk ts,
      flag := false }

/-!
Concrete states used by the witness theorems below.
-/

/-- A degenerate random source: always draw 0. -/
def rand0 : Nat → Nat := fun _ => 0

/-- A concrete 36-character party identifier. -/
def pid0 : String := "00000000-0000-4000-8000-000000000000"

/-- A concrete 36-character guest-link identifier. -/
def gidA : String := "11111111-1111-4111-8111-111111111111"

/-- Another concrete 36-character guest-link identifier. -/
def gidB : String := "22222222-2222-4222-8222-222222222222"

/-- The state after creating one two-guest party. -/
def stOne : St :=
  step (.create "Office" "20" "gifts" (some ["Ann", "Bo"]) pid0 [gidA, gidB] "ts") emptySt

/-- The state after the first assignment lookup on that party. -/
def stTwo : St := step (.assignN pid0 "Ann" rand0) stOne

/-- The assignment table that lookup produces. -/
def tabAB : List (String × String) := [("Ann", "Bo"), ("Bo", "Ann")]

/-- A persistence state with a save already in progress. -/
def sysBusy : SysState :=
  ⟨⟨[("k", .jstr "v")], [], []⟩, ⟨some (some .jnull), none, none⟩,
   [("old.backup", none)], true⟩

/-- An idle persistence state with one party on record. -/
def sysIdle : SysState :=
  ⟨⟨[(pid0, .jstr "partyRecord")], [(pid0, .jobj [])], [(gidA, .jstr "link")]⟩,
   ⟨none, none, none⟩, [], false⟩

/-- The party record stored by the concrete creation above. -/
def partyLit : Party := ⟨pid0, "Office", "20", "gifts", ["Ann", "Bo"], "ts"⟩

/-- The creation response for that concrete party. -/
def respLit : CreateResp :=
  ⟨pid0, [("Ann", baseUrl ++ "/guest/" ++ gidA), ("Bo", baseUrl ++ "/guest/" ++ gidB)],
   partyLit⟩

/-!
Lemmas about the map model.
-/

theorem mget_mset_self {α : Type} (m : List (String × α)) (k : String) (v : α) :
    mget (mset m k v) k = some v := by
  induction m with
  | nil => simp [mset, mget]
  | cons p rest ih =>
    obtain ⟨k0, v0⟩ := p
    by_cases h : k0 = k <;> simp [mset, mget, h, ih]

theorem mget_mset_ne {α : Type} (m : List (String × α)) (k k' : String) (v : α)
    (h : k' ≠ k) : mget (mset m k v) k' = mget m k' := by
  induction m with
  | nil =>
    simp only [mset, mget]
    rw [if_neg (fun hh => h hh.symm)]
  | cons p rest ih =>
    obtain ⟨k0, v0⟩ := p
    by_cases h0 : k0 = k
    · subst h0
      simp only [mset, if_pos rfl, mget]
      rw [if_neg (fun hh => h hh.symm), if_neg (fun hh => h hh.symm)]
    · simp only [mset, if_neg h0, mget]
      by_cases h1 : k0 = k'
      · rw [if_pos h1, if_pos h1]
      · rw [if_neg h1, if_neg h1]
        exact ih

theorem mem_mkeys_of_mget {α : Type} {m : List (String × α)} {k : String} {v : α}
    (h : mget m k = some v) : k ∈ mkeys m := by
  induction m with
  | nil => simp [mget] at h
  | cons p rest ih =>
    obtain ⟨k0, v0⟩ := p
    simp only [mget] at h
    simp only [mkeys, List.map_cons, List.mem_cons]
    by_cases h0 : k0 = k
    · exact Or.inl h0.symm
    · rw [if_neg h0] at h
      exact Or.inr (ih h)

theorem mget_eq_none_of_not_mem {α : Type} {m : List (String × α)} {k : String}
    (h : k ∉ mkeys m) : mget m k = none := by
  induction m with
  | nil => rfl
  | cons p rest ih =>
    obtain ⟨k0, v0⟩ := p
    simp only [mkeys, List.map_cons, List.mem_cons, not_or] at h
    simp only [mget]
    rw [if_neg (fun hh => h.1 hh.symm)]
    exact ih h.2

theorem mkeys_mset {α : Type} (m : List (String × α)) (k : String) (v : α) :
    mkeys (mset m k v) = if k ∈ mkeys m then mkeys m else mkeys m ++ [k] := by
  induction m with
  | nil => simp [mset, mkeys]
  | cons p rest ih =>
    obtain ⟨k0, v0⟩ := p
    by_cases h0 : k0 = k
    · subst h0
      simp [mset, mkeys]
    · have hk : ¬ k = k0 := fun hh => h0 hh.symm
      have ih' : List.map Prod.fst (mset rest k v) =
          if k ∈ List.map Prod.fst rest then List.map Prod.fst rest
          else List.map Prod.fst rest ++ [k] := ih
      simp only [mset, if_neg h0, mkeys, List.map_cons]
      by_cases h1 : k ∈ List.map Prod.fst rest
      · rw [ih', if_pos h1, if_pos (List.mem_cons.mpr (Or.inr h1))]
      · have hnotin : k ∉ k0 :: List.map Prod.fst rest := by
          intro hc
          rcases List.mem_cons.mp hc with hc | hc
          · exact hk hc
          · exact h1 hc
        rw [ih', if_neg h1, if_neg hnotin]
        simp

theorem mkeys_mset_cases {α : Type} {m : List (String × α)} {k k' : String} {v : α}
    (h : k' ∈ mkeys (mset m k v)) : k' = k ∨ k' ∈ mkeys m := by
  rw [mkeys_mset] at h
  by_cases h1 : k ∈ mkeys m
  · rw [if_pos h1] at h
    exact Or.inr h
  · rw [if_neg h1] at h
    rcases List.mem_append.mp h with h2 | h2
    · exact Or.inr h2
    · exact Or.inl (List.mem_singleton.mp h2)

theorem mem_mkeys_mset {α : Type} {m : List (String × α)} {k k' : String} {v : α}
    (h : k' ∈ mkeys m) : k' ∈ mkeys (mset m k v) := by
  rw [mkeys_mset]
  by_cases h1 : k ∈ mkeys m
  · rwa [if_pos h1]
  · rw [if_neg h1]
    exact List.mem_append.mpr (Or.inl h)

/-!
Lemmas about the sanitizer.
-/

theorem sanitizeString_length_le (s : String) (n : Nat) :
    (sanitizeString s n).length ≤ n := by
  have h1 : (sanitizeString s n).length =
      (((jsTrim s).toList.take n).filter (fun c => ¬ c ∈ badChars)).length := rfl
  rw [h1]
  calc (((jsTrim s).toList.take n).filter (fun c => ¬ c ∈ badChars)).length
      ≤ ((jsTrim s).toList.take n).length := List.length_filter_le _ _
    _ ≤ n := List.length_take_le _ _

theorem sanitizeString_no_bad (s : String) (n : Nat) (c : Char)
    (h : c ∈ (sanitizeString s n).toList) : c ∉ badChars := by
  have h1 : (sanitizeString s n).toList =
      ((jsTrim s).toList.take n).filter (fun c => ¬ c ∈ badChars) := rfl
  rw [h1] at h
  have := List.of_mem_filter h
  simpa using this

/-!
Lemmas about the JS destructuring swap on lists: it preserves length,
characterizes pointwise reads, and permutes the list.
-/

theorem listSwap_length {α : Type} (l : List α) (i j : Nat) :
    (listSwap l i j).length = l.length := by
  unfold listSwap
  cases h1 : l[i]? with
  | none => rfl
  | some x =>
    cases h2 : l[j]? with
    | none => rfl
    | some y => simp


theorem listSwap_eq_of {α : Type} {l : List α} {i j : Nat} {x y : α}
    (h1 : l[i]? = some x) (h2 : l[j]? = some y) :
    listSwap l i j = (l.set i y).set j x := by
  unfold listSwap
  rw [h1, h2]

theorem set_of_getElem? {α : Type} : ∀ (l : List α) (i : Nat) (x : α),
    l[i]? = some x → l.set i x = l
  | [], i, x, h => by simp at h
  | a :: t, 0, x, h => by
    simp at h
    simp [List.set, h]
  | a :: t, i + 1, x, h => by
    simp at h
    simp [List.set, set_of_getElem? t i x h]

theorem cons_set_perm {α : Type} : ∀ (t : List α) (j : Nat) (a y : α),
    t[j]? = some y → List.Perm (y :: t.set j a) (a :: t)
  | [], j, a, y, h => by simp at h
  | b :: t', 0, a, y, h => by
    simp at h
    subst h
    exact List.Perm.swap _ _ _
  | b :: t', j + 1, a, y, h => by
    simp only [List.getElem?_cons_succ] at h
    have ih := cons_set_perm t' j a y h
    simp only [List.set]
    exact ((List.Perm.swap b y _).trans (ih.cons b)).trans (List.Perm.swap a b t')

theorem set_set_perm {α : Type} : ∀ (l : List α) (i j : Nat) (x y : α), i < j →
    l[i]? = some x → l[j]? = some y → List.Perm ((l.set i y).set j x) l
  | [], i, j, x, y, hij, h1, h2 => by simp at h1
  | a :: t, 0, j, x, y, hij, h1, h2 => by
    obtain ⟨j', rfl⟩ : ∃ j', j = j' + 1 := ⟨j - 1, by omega⟩
    simp only [List.getElem?_cons_zero, Option.some_inj] at h1
    simp only [List.getElem?_cons_succ] at h2
    subst h1
    simp only [List.set]
    exact cons_set_perm t j' _ _ h2
  | a :: t, i + 1, j, x, y, hij, h1, h2 => by
    obtain ⟨j', rfl⟩ : ∃ j', j = j' + 1 := ⟨j - 1, by omega⟩
    simp only [List.getElem?_cons_succ] at h1 h2
    simp only [List.set]
    exact (set_set_perm t i j' x y (by omega) h1 h2).cons a

theorem listSwap_perm {α : Type} (l : List α) (i j : Nat) :
    List.Perm (listSwap l i j) l := by
  cases h1 : l[i]? with
  | none => unfold listSwap; rw [h1]
  | some x =>
    cases h2 : l[j]? with
    | none => unfold listSwap; rw [h1, h2]
    | some y =>
      rw [listSwap_eq_of h1 h2]
      rcases Nat.lt_trichotomy i j with h | h | h
      · exact set_set_perm l i j x y h h1 h2
      · subst h
        rw [h1] at h2
        rw [Option.some_inj] at h2
        subst h2
        rw [List.set_set, set_of_getElem? l i _ h1]
      · rw [List.set_comm _ _ _ (by omega : i ≠ j)]
        exact set_set_perm l j i y x h h2 h1

theorem listSwap_getElem?_left {α : Type} {l : List α} {i j : Nat} {x y : α}
    (h1 : l[i]? = some x) (h2 : l[j]? = some y) :
    (listSwap l i j)[i]? = some y := by
  have hj : j < l.length := (List.getElem?_eq_some.mp h2).1
  rw [listSwap_eq_of h1 h2, List.getElem?_set]
  by_cases hij : j = i
  · subst hij
    rw [h1] at h2
    rw [Option.some_inj] at h2
    subst h2
    rw [if_pos rfl, if_pos (by simpa using hj)]
  · rw [if_neg hij, List.getElem?_set, if_pos rfl,
        if_pos (List.getElem?_eq_some.mp h1).1]

theorem listSwap_getElem?_right {α : Type} {l : List α} {i j : Nat} {x y : α}
    (h1 : l[i]? = some x) (h2 : l[j]? = some y) :
    (listSwap l i j)[j]? = some x := by
  have hj : j < l.length := (List.getElem?_eq_some.mp h2).1
  rw [listSwap_eq_of h1 h2, List.getElem?_set, if_pos rfl, if_pos (by simpa using hj)]

theorem listSwap_getElem?_other {α : Type} {l : List α} {i j k : Nat}
    (hki : k ≠ i) (hkj : k ≠ j) :
    (listSwap l i j)[k]? = l[k]? := by
  cases h1 : l[i]? with
  | none => unfold listSwap; rw [h1]
  | some x =>
    cases h2 : l[j]? with
    | none => unfold listSwap; rw [h1, h2]
    | some y =>
      rw [listSwap_eq_of h1 h2,
          List.getElem?_set_ne (fun h => hkj h.symm),
          List.getElem?_set_ne (fun h => hki h.symm)]

/-!
The shuffle produces a permutation of its input, and the repair pass turns
any duplicate-free permutation into one with no fixed points — the heart of
the derangement guarantee.
-/

theorem fyAux_perm {α : Type} (rand : Nat → Nat) :
    ∀ (n : Nat) (l : List α), List.Perm (fyAux rand n l) l
  | 0, l => List.Perm.refl l
  | n + 1, l =>
    (fyAux_perm rand n (listSwap l (n + 1) (rand (n + 1) % (n + 2)))).trans
      (listSwap_perm l (n + 1) (rand (n + 1) % (n + 2)))

theorem fisherYates_perm {α : Type} (l : List α) (rand : Nat → Nat) :
    List.Perm (fisherYates l rand) l :=
  fyAux_perm rand (l.length - 1) l

theorem repairAux_spec (g : List String) (hg : g.Nodup) (h2 : 2 ≤ g.length) :
    ∀ (fuel i : Nat) (s : List String), List.Perm s g →
      g.length - i ≤ fuel →
      (∀ k, k < i → s[k]? ≠ g[k]?) →
      List.Perm (repairAux g s i fuel) g ∧
      (∀ k, k < g.length → (repairAux g s i fuel)[k]? ≠ g[k]?) := by
  intro fuel
  induction fuel with
  | zero =>
    intro i s hperm hfuel hinv
    simp only [repairAux]
    exact ⟨hperm, fun k hk => hinv k (by omega)⟩
  | succ fuel ih =>
    intro i s hperm hfuel hinv
    have hlen : s.length = g.length := hperm.length_eq
    by_cases hi : i < s.length
    · obtain ⟨xi, hxi⟩ : ∃ xi, s[i]? = some xi := ⟨_, List.getElem?_eq_getElem hi⟩
      have hsnd : s.Nodup := hperm.nodup_iff.mpr hg
      by_cases hcond : s[i]? = g[i]?
      · have hgi : g[i]? = some xi := by rw [← hcond]; exact hxi
        by_cases hlast : i = s.length - 1
        · have hige : 1 ≤ i := by omega
          have hi1 : i - 1 < s.length := by omega
          obtain ⟨xj, hxj⟩ : ∃ xj, s[i - 1]? = some xj :=
            ⟨_, List.getElem?_eq_getElem hi1⟩
          simp only [repairAux, if_pos hi, if_pos hcond, if_pos hlast]
          apply ih (i + 1) (listSwap s i (i - 1))
          · exact (listSwap_perm s i (i - 1)).trans hperm
          · omega
          · intro k hk
            by_cases hki : k = i
            · subst hki
              rw [listSwap_getElem?_left hxi hxj, hgi]
              intro hEq
              rw [Option.some_inj] at hEq
              subst hEq
              have h3 : s[k - 1]? = s[k]? := by rw [hxj, hxi]
              have h4 := List.getElem?_inj hi1 hsnd h3
              omega
            · by_cases hki1 : k = i - 1
              · subst hki1
                rw [listSwap_getElem?_right hxi hxj]
                intro hEq
                have h3 : g[i - 1]? = g[i]? := by rw [← hEq, hgi]
                have h4 := List.getElem?_inj (by omega) hg h3
                omega
              · rw [listSwap_getElem?_other hki hki1]
                exact hinv k (by omega)
        · have hi1 : i + 1 < s.length := by omega
          obtain ⟨xn, hxn⟩ : ∃ xn, s[i + 1]? = some xn :=
            ⟨_, List.getElem?_eq_getElem hi1⟩
          simp only [repairAux, if_pos hi, if_pos hcond, if_neg hlast]
          apply ih (i + 1) (listSwap s i (i + 1))
          · exact (listSwap_perm s i (i + 1)).trans hperm
          · omega
          · intro k hk
            by_cases hki : k = i
            · subst hki
              rw [listSwap_getElem?_left hxi hxn, hgi]
              intro hEq
              rw [Option.some_inj] at hEq
              subst hEq
              have h3 : s[k + 1]? = s[k]? := by rw [hxn, hxi]
              have h4 := List.getElem?_inj hi1 hsnd h3
              omega
            · have hki1 : k ≠ i + 1 := by omega
              rw [listSwap_getElem?_other hki hki1]
              exact hinv k (by omega)
      · simp only [repairAux, if_pos hi, if_neg hcond]
        apply ih (i + 1) s hperm
        · omega
        · intro k hk
          by_cases hki : k = i
          · subst hki; exact hcond
          · exact hinv k (by omega)
    · simp only [repairAux, if_neg hi]
      exact ⟨hperm, fun k hk => hinv k (by omega)⟩

theorem repairScan_spec (g s : List String) (hg : g.Nodup) (h2 : 2 ≤ g.length)
    (hperm : List.Perm s g) :
    List.Perm (repairScan g s) g ∧
    (∀ k, k < g.length → (repairScan g s)[k]? ≠ g[k]?) :=
  repairAux_spec g hg h2 s.length 0 s hperm
    (by rw [hperm.length_eq]; omega) (fun k hk => absurd hk (by omega))

theorem getElem?_of_mem' {α : Type} {l : List α} {a : α} (h : a ∈ l) :
    ∃ i : Nat, l[i]? = some a := by
  obtain ⟨i, hi, he⟩ := List.getElem_of_mem h
  exact ⟨i, by rw [List.getElem?_eq_getElem hi, he]⟩

theorem mem_of_getElem?' {α : Type} {l : List α} {a : α} {i : Nat}
    (h : l[i]? = some a) : a ∈ l := by
  obtain ⟨hlt, he⟩ := List.getElem?_eq_some.mp h
  exact he ▸ List.getElem_mem hlt

theorem mget_zip : ∀ (g s : List String) (k : Nat) (a : String),
    g.Nodup → g[k]? = some a → s.length = g.length → mget (g.zip s) a = s[k]?
  | [], _, k, a, _, h, _ => by simp at h
  | b :: g', [], k, a, _, _, hlen => by simp at hlen
  | b :: g', c :: s', 0, a, hnd, h, hlen => by
    simp only [List.getElem?_cons_zero, Option.some_inj] at h
    subst h
    simp [List.zip_cons_cons, mget]
  | b :: g', c :: s', k + 1, a, hnd, h, hlen => by
    simp only [List.getElem?_cons_succ] at h
    have hmem : a ∈ g' := mem_of_getElem?' h
    have hb : ¬ b = a := fun hh => (List.nodup_cons.mp hnd).1 (hh ▸ hmem)
    simp only [List.zip_cons_cons, mget, List.getElem?_cons_succ]
    rw [if_neg hb]
    exact mget_zip g' s' k a (List.nodup_cons.mp hnd).2 h (by simpa using hlen)

/-- C1: For every guest list of size N in [2,50] with distinct names, the
assignment table produced on the first assignment lookup (shuffle followed
by the left-to-right repair pass) is a permutation of the guest list with
no fixed points: the table's keys are exactly the guest list, its values
are a permutation of the guest list (each guest appears exactly once as a
value), and the recipient stored for each guest exists, is a guest, and
differs from that guest — for every random draw sequence, including the
backward-swap edge case at the last position. -/
theorem c1_first_lookup_table_is_derangement (guests : List String)
    (rand : Nat → Nat) (hnd : guests.Nodup) (h2 : 2 ≤ guests.length)
    (h50 : guests.length ≤ 50) :
    (mkAssignTable guests rand).map Prod.fst = guests ∧
    List.Perm ((mkAssignTable guests rand).map Prod.snd) guests ∧
    ∀ gname ∈ guests, ∃ r, mget (mkAssignTable guests rand) gname = some r ∧
      r ≠ gname ∧ r ∈ guests := by
  have hfy := fisherYates_perm guests rand
  obtain ⟨hperm, hfix⟩ :=
    repairScan_spec guests (fisherYates guests rand) hnd h2 hfy
  have hmk : mkAssignTable guests rand =
      guests.zip (repairScan guests (fisherYates guests rand)) := rfl
  have hlen : (repairScan guests (fisherYates guests rand)).length =
      guests.length := hperm.length_eq
  refine ⟨?_, ?_, ?_⟩
  · rw [hmk]
    exact List.map_fst_zip _ _ (by omega)
  · rw [hmk, List.map_snd_zip _ _ (by omega)]
    exact hperm
  · intro gname hmem
    obtain ⟨k, hk⟩ := getElem?_of_mem' hmem
    have hk_lt : k < guests.length := (List.getElem?_eq_some.mp hk).1
    have hmg := mget_zip guests (repairScan guests (fisherYates guests rand))
      k gname hnd hk hlen
    obtain ⟨r, hr⟩ :
        ∃ r, (repairScan guests (fisherYates guests rand))[k]? = some r :=
      ⟨_, List.getElem?_eq_getElem (by omega)⟩
    refine ⟨r, by rw [hmk, hmg, hr], ?_, ?_⟩
    · intro hEq
      exact hfix k hk_lt (by rw [hr, hEq, hk])
    · exact hperm.mem_iff.mp (mem_of_getElem?' hr)

/-- Witness for C1 at the concrete guest list Ann, Bo with the all-zero
random source. -/
theorem c1_first_lookup_table_is_derangement_witness :
    ((["Ann", "Bo"] : List String).Nodup ∧
     2 ≤ (["Ann", "Bo"] : List String).length ∧
     (["Ann", "Bo"] : List String).length ≤ 50) ∧
    ((mkAssignTable ["Ann", "Bo"] rand0).map Prod.fst = ["Ann", "Bo"] ∧
     List.Perm ((mkAssignTable ["Ann", "Bo"] rand0).map Prod.snd)
       ["Ann", "Bo"] ∧
     ∀ gname ∈ (["Ann", "Bo"] : List String), ∃ r,
       mget (mkAssignTable ["Ann", "Bo"] rand0) gname = some r ∧
       r ≠ gname ∧ r ∈ (["Ann", "Bo"] : List String)) :=
  ⟨⟨by decide, by decide, by decide⟩,
   c1_first_lookup_table_is_derangement ["Ann", "Bo"] rand0
     (by decide) (by decide) (by decide)⟩

/-!
How each handler changes the stores.
-/

theorem assignByName_state (st : St) (pid g : String) (rand : Nat → Nat) :
    (assignByName st pid g rand).1 = st ∨
    ∃ party, mget st.parties pid = some party ∧
      mget st.assignments pid = none ∧
      (assignByName st pid g rand).1 =
        { st with assignments := mset st.assignments pid (mkAssignTable party.guests rand) } := by
  unfold assignByName
  by_cases h1 : g = ""
  · rw [if_pos h1]; exact Or.inl rfl
  · rw [if_neg h1]
    by_cases h2 : sanitizeString g 50 = ""
    · rw [if_pos h2]; exact Or.inl rfl
    · rw [if_neg h2]
      cases hp : mget st.parties pid with
      | none => exact Or.inl rfl
      | some party =>
        dsimp only
        by_cases h3 : ¬ sanitizeString g 50 ∈ party.guests
        · rw [if_pos h3]; exact Or.inl rfl
        · rw [if_neg h3]
          cases hc : mget st.assignments (pid ++ "-" ++ sanitizeString g 50) with
          | some existing => exact Or.inl rfl
          | none =>
            dsimp only
            cases ht : mget st.assignments pid with
            | some t => exact Or.inl rfl
            | none => exact Or.inr ⟨party, rfl, rfl, rfl⟩

theorem assignByGuestLink_state (st : St) (gid : String) (rand : Nat → Nat) :
    (assignByGuestLink st gid rand).1 = st ∨
    ∃ link party, mget st.guestLinks gid = some link ∧
      mget st.parties link.partyId = some party ∧
      mget st.assignments link.partyId = none ∧
      (assignByGuestLink st gid rand).1 =
        { st with assignments := mset st.assignments link.partyId (mkAssignTable party.guests rand) } := by
  unfold assignByGuestLink
  by_cases h1 : gid.length ≠ 36
  · rw [if_pos h1]; exact Or.inl rfl
  · rw [if_neg h1]
    cases hl : mget st.guestLinks gid with
    | none => exact Or.inl rfl
    | some link =>
      dsimp only
      cases hp : mget st.parties link.partyId with
      | none => exact Or.inl rfl
      | some party =>
        dsimp only
        cases ht : mget st.assignments link.partyId with
        | some t => exact Or.inl rfl
        | none => exact Or.inr ⟨link, party, rfl, hp, ht, rfl⟩

theorem createParty_parts (st : St) (n b c : String) (gs : Option (List String))
    (pid : String) (gids : List String) (ts : String) :
    (createParty st n b c gs pid gids ts).1.assignments = st.assignments ∧
    ((createParty st n b c gs pid gids ts).1.parties = st.parties ∨
     ∃ party, (createParty st n b c gs pid gids ts).1.parties =
       mset st.parties pid party) := by
  unfold createParty
  cases gs with
  | none => exact ⟨rfl, Or.inl rfl⟩
  | some gl =>
    dsimp only
    by_cases h1 : n = "" ∨ gl.length < 2
    · rw [if_pos h1]; exact ⟨rfl, Or.inl rfl⟩
    · rw [if_neg h1]
      by_cases h2 : gl.length > 50
      · rw [if_pos h2]; exact ⟨rfl, Or.inl rfl⟩
      · rw [if_neg h2]
        by_cases h3 : sanitizeString n 100 = ""
        · rw [if_pos h3]; exact ⟨rfl, Or.inl rfl⟩
        · rw [if_neg h3]
          by_cases h4 : gl.any (fun g => sanitizeString g 50 = "")
          · rw [if_pos h4]; exact ⟨rfl, Or.inl rfl⟩
          · rw [if_neg h4]
            by_cases h5 : ¬ (gl.map (fun g => sanitizeString g 50)).Nodup
            · rw [if_pos h5]; exact ⟨rfl, Or.inl rfl⟩
            · rw [if_neg h5]
              exact ⟨rfl, Or.inr ⟨_, rfl⟩⟩

/-- Every reachable state keeps the key discipline: party keys are
36-character identifiers and assignment keys are party keys. -/
theorem reachable_goodKeys {st : St} (h : Reachable st) : GoodKeys st := by
  induction h with
  | init =>
    constructor
    · intro k hk; simp [emptySt, mkeys] at hk
    · intro k hk; simp [emptySt, mkeys] at hk
  | create st n b c gs pid gids ts hr hpid hgids ih =>
    obtain ⟨hassign, hparts⟩ := createParty_parts st n b c gs pid gids ts
    constructor
    · intro k hk
      rcases hparts with hp | ⟨party, hp⟩
      · rw [step, hp] at hk
        exact ih.1 k hk
      · rw [step, hp] at hk
        rcases mkeys_mset_cases hk with rfl | hk
        · exact hpid
        · exact ih.1 k hk
    · intro k hk
      rw [step, hassign] at hk
      obtain ⟨hlen, hmem⟩ := ih.2 k hk
      refine ⟨hlen, ?_⟩
      rcases hparts with hp | ⟨party, hp⟩
      · rw [step, hp]; exact hmem
      · rw [step, hp]; exact mem_mkeys_mset hmem
  | assignN st pid g rand hr ih =>
    rcases assignByName_state st pid g rand with heq | ⟨party, hp, ht, heq⟩
    · rw [step, heq]; exact ih
    · rw [step, heq]
      constructor
      · intro k hk
        exact ih.1 k hk
      · intro k hk
        rcases mkeys_mset_cases hk with heq | hk
        · rw [heq]
          exact ⟨ih.1 pid (mem_mkeys_of_mget hp), mem_mkeys_of_mget hp⟩
        · exact ih.2 k hk
  | assignL st gid rand hr ih =>
    rcases assignByGuestLink_state st gid rand with heq | ⟨link, party, hl, hp, ht, heq⟩
    · rw [step, heq]; exact ih
    · rw [step, heq]
      constructor
      · intro k hk
        exact ih.1 k hk
      · intro k hk
        rcases mkeys_mset_cases hk with heq | hk
        · rw [heq]
          exact ⟨ih.1 link.partyId (mem_mkeys_of_mget hp), mem_mkeys_of_mget hp⟩
        · exact ih.2 k hk

/-!
Value-level characterizations of the handlers.
-/

theorem assignByName_of_table (st : St) (pid g : String) (rand : Nat → Nat)
    (party : Party) (t : List (String × String))
    (hp : mget st.parties pid = some party)
    (ht : mget st.assignments pid = some t)
    (hcomp : mget st.assignments (pid ++ "-" ++ sanitizeString g 50) = none)
    (hg : ¬ g = "") (hsg : ¬ sanitizeString g 50 = "")
    (hmem : sanitizeString g 50 ∈ party.guests) :
    assignByName st pid g rand =
      (st, .ok (.val (mget t (sanitizeString g 50)))) := by
  unfold assignByName
  rw [if_neg hg, if_neg hsg, hp]
  dsimp only
  rw [if_neg (not_not_intro hmem), hcomp]
  dsimp only
  rw [ht]

theorem assignByName_fst_of_table (st : St) (pid g : String) (rand : Nat → Nat)
    (t : List (String × String)) (ht : mget st.assignments pid = some t) :
    (assignByName st pid g rand).1 = st := by
  rcases assignByName_state st pid g rand with heq | ⟨party, hp, ht', heq⟩
  · exact heq
  · rw [ht] at ht'
    cases ht'

theorem assignByGuestLink_of_table (st : St) (gid : String) (rand : Nat → Nat)
    (link : GuestLink) (party : Party) (t : List (String × String))
    (h36 : gid.length = 36)
    (hl : mget st.guestLinks gid = some link)
    (hp : mget st.parties link.partyId = some party)
    (ht : mget st.assignments link.partyId = some t) :
    assignByGuestLink st gid rand =
      (st, .ok ⟨⟨party.name, party.budget, party.criteria⟩, link.guestName,
                mget t link.guestName⟩) := by
  unfold assignByGuestLink
  rw [if_neg (not_not_intro h36), hl]
  dsimp only
  rw [hp]
  dsimp only
  rw [ht]

theorem assignByGuestLink_no_table (st : St) (gid : String) (rand : Nat → Nat)
    (link : GuestLink) (party : Party)
    (h36 : gid.length = 36)
    (hl : mget st.guestLinks gid = some link)
    (hp : mget st.parties link.partyId = some party)
    (ht : mget st.assignments link.partyId = none) :
    assignByGuestLink st gid rand =
      ({ st with assignments := mset st.assignments link.partyId (mkAssignTable party.guests rand) },
       .ok ⟨⟨party.name, party.budget, party.criteria⟩, link.guestName,
            mget (mkAssignTable party.guests rand) link.guestName⟩) := by
  unfold assignByGuestLink
  rw [if_neg (not_not_intro h36), hl]
  dsimp only
  rw [hp]
  dsimp only
  rw [ht]

/-- Under the key discipline, the compound key read first by the
assign-by-name handler is never bound: assignment keys are 36 characters
long, while the compound key is at least 38. -/
theorem compound_lookup_none {st : St} (hgood : GoodKeys st) {pid : String}
    {party : Party} (hp : mget st.parties pid = some party) {g : String}
    (hg : g ≠ "") : mget st.assignments (pid ++ "-" ++ g) = none := by
  apply mget_eq_none_of_not_mem
  intro hmem
  have h36 := (hgood.2 _ hmem).1
  have hpid36 : pid.length = 36 := hgood.1 pid (mem_mkeys_of_mget hp)
  rw [String.length_append, String.length_append] at h36
  have hdash : ("-" : String).length = 1 := rfl
  have hglen : g.length ≠ 0 := fun h0 => hg (by
    cases g with
    | mk data => cases data with
      | nil => rfl
      | cons c cs => simp [String.length] at h0)
  omega

theorem createParty_success (st : St) (n b c : String) (gl : List String)
    (pid : String) (gids : List String) (ts : String)
    (h2 : 2 ≤ gl.length) (h50 : gl.length ≤ 50)
    (hn : ¬ sanitizeString n 100 = "")
    (hge : ∀ g ∈ gl, ¬ sanitizeString g 50 = "")
    (hnd : (gl.map (fun g => sanitizeString g 50)).Nodup) :
    createParty st n b c (some gl) pid gids ts =
      ({ st with
         parties := mset st.parties pid ⟨pid, sanitizeString n 100, sanitizeString b 50, sanitizeString c 500, gl.map (fun g => sanitizeString g 50), ts⟩,
         guestLinks := ((gl.map (fun g => sanitizeString g 50)).zip gids).foldl (fun m p => mset m p.2 ⟨pid, p.1⟩) st.guestLinks },
       .ok ⟨pid,
            ((gl.map (fun g => sanitizeString g 50)).zip gids).map (fun p => (p.1, baseUrl ++ "/guest/" ++ p.2)),
            ⟨pid, sanitizeString n 100, sanitizeString b 50, sanitizeString c 500, gl.map (fun g => sanitizeString g 50), ts⟩⟩) := by
  have hn' : ¬ n = "" := fun h => hn (by rw [h]; rfl)
  unfold createParty
  dsimp only
  rw [if_neg (by push_neg; exact ⟨hn', by omega⟩)]
  rw [if_neg (by omega : ¬ gl.length > 50)]
  rw [if_neg hn]
  rw [if_neg (by simpa [List.any_eq_true] using hge)]
  rw [if_neg (not_not_intro hnd)]

/-- On a two-guest list the algorithm always produces the unique
derangement: whatever the shuffle draw, the repair pass leaves the
reversed list. -/
theorem mkAssignTable_two (a b : String) (rand : Nat → Nat) (h : ¬ a = b) :
    mkAssignTable [a, b] rand = [(a, b), (b, a)] := by
  have hr : rand 1 % 2 = 0 ∨ rand 1 % 2 = 1 := by omega
  have hba : ¬ b = a := fun hh => h hh.symm
  rcases hr with hr | hr <;>
    simp [mkAssignTable, fisherYates, fyAux, repairScan, repairAux, listSwap,
      hr, h, hba, List.set]

/-!
Persistence lemmas: repopulating a fresh map from serialized entries with
duplicate-free keys reproduces the entries exactly.
-/

theorem mset_append_of_not_mem {α : Type} (m : List (String × α)) (k : String)
    (v : α) (h : k ∉ mkeys m) : mset m k v = m ++ [(k, v)] := by
  induction m with
  | nil => rfl
  | cons p rest ih =>
    obtain ⟨k0, v0⟩ := p
    simp only [mkeys, List.map_cons, List.mem_cons, not_or] at h
    simp only [mset]
    rw [if_neg (fun hh => h.1 hh.symm)]
    rw [ih h.2]
    rfl

theorem foldl_mset_eq {α : Type} : ∀ (l acc : List (String × α)),
    (mkeys (acc ++ l)).Nodup →
    l.foldl (fun m kv => mset m kv.1 kv.2) acc = acc ++ l
  | [], acc, _ => by simp
  | kv :: l', acc, h => by
    obtain ⟨k, v⟩ := kv
    have hsplit := List.nodup_append.mp
      (by simpa [mkeys, List.map_append] using h)
    have hnotin : k ∉ mkeys acc := fun hk =>
      hsplit.2.2 hk (List.mem_cons_self k _)
    have happ : (acc ++ [(k, v)]) ++ l' = acc ++ (k, v) :: l' := by simp
    calc (((k, v) :: l').foldl (fun m kv => mset m kv.1 kv.2) acc)
        = l'.foldl (fun m kv => mset m kv.1 kv.2) (mset acc k v) := by
          rw [List.foldl_cons]
      _ = l'.foldl (fun m kv => mset m kv.1 kv.2) (acc ++ [(k, v)]) := by
          rw [mset_append_of_not_mem acc k v hnotin]
      _ = (acc ++ [(k, v)]) ++ l' := by
          apply foldl_mset_eq
          rw [happ]
          exact h
      _ = acc ++ (k, v) :: l' := happ

theorem loadStore_eq (es : List (String × JVal)) (h : (mkeys es).Nodup) :
    loadStore es = es := by
  have h2 := foldl_mset_eq es [] (by simpa using h)
  simpa [loadStore] using h2

/-- C2: Once an assignment table exists for a party, no operation — party
creation, assign-by-name, or assign-by-guest-link, for any arguments and
any random draws — ever replaces or mutates it; an assign-by-name call for
that party leaves the state untouched, and both lookup entry points answer
from the stored table, so every guest receives the identical recipient on
every subsequent lookup, with no recomputation. -/
theorem c2_assignment_table_immutable (st : St) (hreach : Reachable st)
    (pid : String) (t : List (String × String))
    (ht : mget st.assignments pid = some t) :
    (∀ o : Op, mget (step o st).assignments pid = some t) ∧
    (∀ g rand, (assignByName st pid g rand).1 = st) ∧
    (∀ g rand party, mget st.parties pid = some party → ¬ g = "" →
       ¬ sanitizeString g 50 = "" → sanitizeString g 50 ∈ party.guests →
       assignByName st pid g rand =
         (st, .ok (.val (mget t (sanitizeString g 50))))) ∧
    (∀ gid rand link party, gid.length = 36 →
       mget st.guestLinks gid = some link → link.partyId = pid →
       mget st.parties pid = some party →
       assignByGuestLink st gid rand =
         (st, .ok ⟨⟨party.name, party.budget, party.criteria⟩, link.guestName,
                   mget t link.guestName⟩)) := by
  have hgood := reachable_goodKeys hreach
  refine ⟨?_, ?_, ?_, ?_⟩
  · intro o
    cases o with
    | create n b c gs pid' gids ts =>
      rw [step, (createParty_parts st n b c gs pid' gids ts).1]
      exact ht
    | assignN pid' g rand =>
      rcases assignByName_state st pid' g rand with heq | ⟨party, hp, ht', heq⟩
      · rw [step, heq]; exact ht
      · rw [step, heq]
        by_cases hpp : pid' = pid
        · subst hpp
          rw [ht] at ht'
          cases ht'
        · rw [mget_mset_ne _ _ _ _ (fun hh => hpp hh.symm)]
          exact ht
    | assignL gid rand =>
      rcases assignByGuestLink_state st gid rand with heq | ⟨link, party, hl, hp, ht', heq⟩
      · rw [step, heq]; exact ht
      · rw [step, heq]
        by_cases hpp : link.partyId = pid
        · rw [hpp] at ht'
          rw [ht] at ht'
          cases ht'
        · rw [mget_mset_ne _ _ _ _ (fun hh => hpp hh.symm)]
          exact ht
  · intro g rand
    exact assignByName_fst_of_table st pid g rand t ht
  · intro g rand party hp hg hsg hmem
    exact assignByName_of_table st pid g rand party t hp ht
      (compound_lookup_none hgood hp hsg) hg hsg hmem
  · intro gid rand link party h36 hl hlp hp
    have hp' : mget st.parties link.partyId = some party := by rw [hlp]; exact hp
    have ht' : mget st.assignments link.partyId = some t := by rw [hlp]; exact ht
    exact assignByGuestLink_of_table st gid rand link party t h36 hl hp' ht'

/-- Witness for C2 on a concrete two-guest party whose table is already
fixed: a further lookup by the other guest changes nothing and reads the
stored table. -/
theorem c2_assignment_table_immutable_witness :
    Reachable stTwo ∧ mget stTwo.assignments pid0 = some tabAB ∧
    mget (step (.assignN pid0 "Bo" rand0) stTwo).assignments pid0 = some tabAB ∧
    assignByName stTwo pid0 "Bo" rand0 = (stTwo, .ok (.val (some "Ann"))) := by
  have hr : Reachable stTwo :=
    Reachable.assignN stOne pid0 "Ann" rand0
      (Reachable.create emptySt "Office" "20" "gifts" (some ["Ann", "Bo"])
        pid0 [gidA, gidB] "ts" Reachable.init (by decide) (by decide))
  have ht : mget stTwo.assignments pid0 = some tabAB := by decide
  have hmain := c2_assignment_table_immutable stTwo hr pid0 tabAB ht
  refine ⟨hr, ht, hmain.1 _, ?_⟩
  have h3 := hmain.2.2.1 "Bo" rand0
    ⟨pid0, "Office", "20", "gifts", ["Ann", "Bo"], "ts"⟩
    (by decide) (by decide) (by decide) (by decide)
  rw [h3]
  rfl

/-- C3: For every stored guest link whose party resolves, the success
response of the guest-link lookup is exactly the party's name, budget and
criteria, the link's own guest name, and that guest's stored recipient —
whether the table already existed or is created by this lookup. The
response record has no further fields: in particular it carries neither
the party's guests list nor any other guest's entry. -/
theorem c3_guest_link_response_scoped (st : St) (gid : String)
    (rand : Nat → Nat) (link : GuestLink) (party : Party)
    (h36 : gid.length = 36)
    (hl : mget st.guestLinks gid = some link)
    (hp : mget st.parties link.partyId = some party) :
    ∃ t, mget (assignByGuestLink st gid rand).1.assignments link.partyId = some t ∧
      (assignByGuestLink st gid rand).2 =
        .ok ⟨⟨party.name, party.budget, party.criteria⟩, link.guestName,
             mget t link.guestName⟩ ∧
      ∀ resp, (assignByGuestLink st gid rand).2 = .ok resp →
        resp.party.name = party.name ∧ resp.party.budget = party.budget ∧
        resp.party.criteria = party.criteria ∧
        resp.guestName = link.guestName ∧
        resp.assignment = mget t link.guestName := by
  cases ht : mget st.assignments link.partyId with
  | some t =>
    have heq := assignByGuestLink_of_table st gid rand link party t h36 hl hp ht
    refine ⟨t, by rw [heq]; exact ht, by rw [heq], ?_⟩
    intro resp hresp
    rw [heq] at hresp
    dsimp only at hresp
    rw [Except.ok.injEq] at hresp
    rw [← hresp]
    exact ⟨rfl, rfl, rfl, rfl, rfl⟩
  | none =>
    have heq := assignByGuestLink_no_table st gid rand link party h36 hl hp ht
    refine ⟨mkAssignTable party.guests rand, ?_, by rw [heq], ?_⟩
    · rw [heq]
      exact mget_mset_self _ _ _
    · intro resp hresp
      rw [heq] at hresp
      dsimp only at hresp
      rw [Except.ok.injEq] at hresp
      rw [← hresp]
      exact ⟨rfl, rfl, rfl, rfl, rfl⟩

/-- Witness for C3 at a concrete stored link whose table is fixed. -/
theorem c3_guest_link_response_scoped_witness :
    gidA.length = 36 ∧
    mget stTwo.guestLinks gidA = some ⟨pid0, "Ann"⟩ ∧
    mget stTwo.parties pid0 = some ⟨pid0, "Office", "20", "gifts", ["Ann", "Bo"], "ts"⟩ ∧
    ∃ t, mget (assignByGuestLink stTwo gidA rand0).1.assignments pid0 = some t ∧
      (assignByGuestLink stTwo gidA rand0).2 =
        .ok ⟨⟨"Office", "20", "gifts"⟩, "Ann", mget t "Ann"⟩ ∧
      ∀ resp, (assignByGuestLink stTwo gidA rand0).2 = .ok resp →
        resp.party.name = "Office" ∧ resp.party.budget = "20" ∧
        resp.party.criteria = "gifts" ∧
        resp.guestName = "Ann" ∧
        resp.assignment = mget t "Ann" :=
  ⟨by decide, by decide, by decide,
   c3_guest_link_response_scoped stTwo gidA rand0 ⟨pid0, "Ann"⟩
     ⟨pid0, "Office", "20", "gifts", ["Ann", "Bo"], "ts"⟩
     (by decide) (by decide) (by decide)⟩

/-- C5: The guest-link lookup rejects any identifier whose length is not
exactly 36 with status 400 regardless of the stores' contents (so before
any lookup can matter), and for 36-character identifiers proceeds to
resolution, answering 404 when the link or its party is missing — in both
cases leaving the state unchanged. -/
theorem c5_guest_link_id_length_check :
    (∀ st gid rand, gid.length ≠ 36 →
       assignByGuestLink st gid rand = (st, .error 400)) ∧
    (∀ st gid rand, gid.length = 36 → mget st.guestLinks gid = none →
       assignByGuestLink st gid rand = (st, .error 404)) ∧
    (∀ st gid rand link, gid.length = 36 →
       mget st.guestLinks gid = some link →
       mget st.parties link.partyId = none →
       assignByGuestLink st gid rand = (st, .error 404)) := by
  refine ⟨?_, ?_, ?_⟩
  · intro st gid rand h
    unfold assignByGuestLink
    rw [if_pos h]
  · intro st gid rand h36 hl
    unfold assignByGuestLink
    rw [if_neg (not_not_intro h36), hl]
  · intro st gid rand link h36 hl hp
    unfold assignByGuestLink
    rw [if_neg (not_not_intro h36), hl]
    dsimp only
    rw [hp]

/-- Witness for C5: a short identifier is rejected on a populated store, an
unknown 36-character identifier and a dangling link each give 404. -/
theorem c5_guest_link_id_length_check_witness :
    ("short" : String).length ≠ 36 ∧
    assignByGuestLink stTwo "short" rand0 = (stTwo, .error 400) ∧
    mget emptySt.guestLinks gidB = none ∧
    assignByGuestLink emptySt gidB rand0 = (emptySt, .error 404) ∧
    mget (St.mk [] [] [(gidA, ⟨pid0, "Ann"⟩)]).guestLinks gidA = some ⟨pid0, "Ann"⟩ ∧
    assignByGuestLink (St.mk [] [] [(gidA, ⟨pid0, "Ann"⟩)]) gidA rand0 =
      (St.mk [] [] [(gidA, ⟨pid0, "Ann"⟩)], .error 404) :=
  ⟨by decide,
   c5_guest_link_id_length_check.1 stTwo "short" rand0 (by decide),
   by decide,
   c5_guest_link_id_length_check.2.1 emptySt gidB rand0 (by decide) (by decide),
   by decide,
   c5_guest_link_id_length_check.2.2 (St.mk [] [] [(gidA, ⟨pid0, "Ann"⟩)])
     gidA rand0 ⟨pid0, "Ann"⟩ (by decide) (by decide) (by decide)⟩

/-- C4: Party creation answers 400 whenever the guests array is missing,
has fewer than 2 or more than 50 entries, or has duplicate names after
sanitization; with a name that survives sanitization and 2 to 50 guests
that each survive sanitization and are distinct afterwards, it succeeds,
stores the party, and echoes the sanitized guest list; and for a party of
exactly two guests the table built on the first lookup is the unique valid
derangement, each guest giving to the other. -/
theorem c4_createParty_validation_and_two_guest_case :
    (∀ st n b c pid gids ts,
       (createParty st n b c none pid gids ts).2 = .error 400) ∧
    (∀ st n b c gl pid gids ts, gl.length < 2 →
       (createParty st n b c (some gl) pid gids ts).2 = .error 400) ∧
    (∀ st n b c gl pid gids ts, gl.length > 50 →
       (createParty st n b c (some gl) pid gids ts).2 = .error 400) ∧
    (∀ st n b c gl pid gids ts,
       ¬ (gl.map (fun g => sanitizeString g 50)).Nodup →
       (createParty st n b c (some gl) pid gids ts).2 = .error 400) ∧
    (∀ st n b c gl pid gids ts, 2 ≤ gl.length → gl.length ≤ 50 →
       ¬ sanitizeString n 100 = "" → (∀ g ∈ gl, ¬ sanitizeString g 50 = "") →
       (gl.map (fun g => sanitizeString g 50)).Nodup →
       ∃ party : Party,
         (createParty st n b c (some gl) pid gids ts).2 =
           .ok ⟨pid, ((gl.map (fun g => sanitizeString g 50)).zip gids).map (fun p => (p.1, baseUrl ++ "/guest/" ++ p.2)), party⟩ ∧
         mget (createParty st n b c (some gl) pid gids ts).1.parties pid = some party ∧
         party.guests = gl.map (fun g => sanitizeString g 50)) ∧
    (∀ a b : String, ∀ rand : Nat → Nat, ¬ a = b →
       mkAssignTable [a, b] rand = [(a, b), (b, a)]) := by
  refine ⟨?_, ?_, ?_, ?_, ?_, ?_⟩
  · intro st n b c pid gids ts
    rfl
  · intro st n b c gl pid gids ts h
    unfold createParty
    dsimp only
    rw [if_pos (Or.inr h)]
  · intro st n b c gl pid gids ts h
    unfold createParty
    dsimp only
    by_cases h1 : n = "" ∨ gl.length < 2
    · rw [if_pos h1]
    · rw [if_neg h1, if_pos h]
  · intro st n b c gl pid gids ts hnd
    unfold createParty
    dsimp only
    by_cases h1 : n = "" ∨ gl.length < 2
    · rw [if_pos h1]
    · rw [if_neg h1]
      by_cases h2 : gl.length > 50
      · rw [if_pos h2]
      · rw [if_neg h2]
        by_cases h3 : sanitizeString n 100 = ""
        · rw [if_pos h3]
        · rw [if_neg h3]
          by_cases h4 : (gl.any fun g => decide (sanitizeString g 50 = "")) = true
          · rw [if_pos h4]
          · rw [if_neg h4, if_pos hnd]
  · intro st n b c gl pid gids ts h2 h50 hn hge hnd
    refine ⟨⟨pid, sanitizeString n 100, sanitizeString b 50, sanitizeString c 500, gl.map (fun g => sanitizeString g 50), ts⟩, ?_, ?_, rfl⟩
    · rw [createParty_success st n b c gl pid gids ts h2 h50 hn hge hnd]
    · rw [createParty_success st n b c gl pid gids ts h2 h50 hn hge hnd]
      exact mget_mset_self _ _ _
  · intro a b rand h
    exact mkAssignTable_two a b rand h

/-- Witness for C4: missing guests fail, a concrete two-guest party
succeeds, and its table is the unique two-guest derangement. -/
theorem c4_createParty_validation_and_two_guest_case_witness :
    (createParty emptySt "Office" "20" "gifts" none pid0 [gidA, gidB] "ts").2 = .error 400 ∧
    (createParty emptySt "Office" "20" "gifts" (some ["Solo"]) pid0 [gidA] "ts").2 = .error 400 ∧
    (∃ party : Party,
       (createParty emptySt "Office" "20" "gifts" (some ["Ann", "Bo"]) pid0 [gidA, gidB] "ts").2 =
         .ok ⟨pid0, (((["Ann", "Bo"] : List String).map (fun g => sanitizeString g 50)).zip [gidA, gidB]).map (fun p => (p.1, baseUrl ++ "/guest/" ++ p.2)), party⟩ ∧
       mget (createParty emptySt "Office" "20" "gifts" (some ["Ann", "Bo"]) pid0 [gidA, gidB] "ts").1.parties pid0 = some party ∧
       party.guests = (["Ann", "Bo"] : List String).map (fun g => sanitizeString g 50)) ∧
    mkAssignTable ["A", "B"] rand0 = [("A", "B"), ("B", "A")] :=
  ⟨c4_createParty_validation_and_two_guest_case.1 emptySt "Office" "20" "gifts" pid0 [gidA, gidB] "ts",
   c4_createParty_validation_and_two_guest_case.2.1 emptySt "Office" "20" "gifts" ["Solo"] pid0 [gidA] "ts" (by decide),
   c4_createParty_validation_and_two_guest_case.2.2.2.2.1 emptySt "Office" "20" "gifts" ["Ann", "Bo"] pid0 [gidA, gidB] "ts"
     (by decide) (by decide) (by decide) (by decide) (by decide),
   c4_createParty_validation_and_two_guest_case.2.2.2.2.2 "A" "B" rand0 (by decide)⟩

/-- C9: In every state reachable through the server's own operations, every
key of the assignments map is a party id (a key of the parties map, 36
characters long), so the compound-key lookup at the top of the
assign-by-name handler never finds an entry, and the early-return branch —
the only one that could echo a whole table as the assignment — is
unreachable. -/
theorem c9_compound_key_branch_unreachable (st : St) (hreach : Reachable st) :
    (∀ k ∈ mkeys st.assignments, k ∈ mkeys st.parties ∧ k.length = 36) ∧
    (∀ pid party g, mget st.parties pid = some party → ¬ g = "" →
       mget st.assignments (pid ++ "-" ++ g) = none) ∧
    (∀ pid g rand t,
       ¬ (assignByName st pid g rand).2 = .ok (.tableVal t)) := by
  have hgood := reachable_goodKeys hreach
  refine ⟨?_, ?_, ?_⟩
  · intro k hk
    exact ⟨(hgood.2 k hk).2, (hgood.2 k hk).1⟩
  · intro pid party g hp hg
    exact compound_lookup_none hgood hp hg
  · intro pid g rand t habs
    unfold assignByName at habs
    by_cases h1 : g = ""
    · rw [if_pos h1] at habs
      simp at habs
    · rw [if_neg h1] at habs
      by_cases h2 : sanitizeString g 50 = ""
      · rw [if_pos h2] at habs
        simp at habs
      · rw [if_neg h2] at habs
        cases hp : mget st.parties pid with
        | none =>
          rw [hp] at habs
          simp at habs
        | some party =>
          rw [hp] at habs
          dsimp only at habs
          by_cases h3 : ¬ sanitizeString g 50 ∈ party.guests
          · rw [if_pos h3] at habs
            simp at habs
          · rw [if_neg h3] at habs
            rw [compound_lookup_none hgood hp h2] at habs
            dsimp only at habs
            cases ht : mget st.assignments pid with
            | some t' =>
              rw [ht] at habs
              simp at habs
            | none =>
              rw [ht] at habs
              simp at habs

/-- Witness for C9 in a concrete reachable state with a stored table: the
compound key misses and the lookup never echoes a table. -/
theorem c9_compound_key_branch_unreachable_witness :
    Reachable stTwo ∧
    mget stTwo.parties pid0 = some ⟨pid0, "Office", "20", "gifts", ["Ann", "Bo"], "ts"⟩ ∧
    mget stTwo.assignments (pid0 ++ "-" ++ "Ann") = none ∧
    ¬ (assignByName stTwo pid0 "Ann" rand0).2 = .ok (.tableVal tabAB) := by
  have hr : Reachable stTwo :=
    Reachable.assignN stOne pid0 "Ann" rand0
      (Reachable.create emptySt "Office" "20" "gifts" (some ["Ann", "Bo"])
        pid0 [gidA, gidB] "ts" Reachable.init (by decide) (by decide))
  have hmain := c9_compound_key_branch_unreachable stTwo hr
  exact ⟨hr, by decide,
    hmain.2.1 pid0 ⟨pid0, "Office", "20", "gifts", ["Ann", "Bo"], "ts"⟩ "Ann"
      (by decide) (by decide),
    hmain.2.2 pid0 "Ann" rand0 tabAB⟩

/-- C7: If a save is requested while one is already in progress
(`saveInProgress` set), the call returns at once with the whole system
state — in-memory maps, the three files, and the backup area — unchanged:
the request is dropped, not queued and not retried. -/
theorem c7_overlapping_save_dropped (s : SysState) (ts : String)
    (h : s.flag = true) : saveData s ts = s := by
  unfold saveData
  rw [if_pos h]

/-- Witness for C7 on a concrete busy state. -/
theorem c7_overlapping_save_dropped_witness :
    sysBusy.flag = true ∧ saveData sysBusy "ts2" = sysBusy :=
  ⟨rfl, c7_overlapping_save_dropped sysBusy "ts2" rfl⟩

/-- C8: After an idle-state save, loading the written files into a fresh
empty store reproduces the in-memory maps exactly: every party, assignment
table, and guest link present before the save is present and
field-identical after the load. -/
theorem c8_save_load_round_trip (s : SysState) (ts : String)
    (hflag : s.flag = false)
    (hp : (mkeys s.mem.parties).Nodup)
    (ha : (mkeys s.mem.assignments).Nodup)
    (hg : (mkeys s.mem.guestLinks).Nodup) :
    loadData (saveData s ts).disk.pFile (saveData s ts).disk.aFile
        (saveData s ts).disk.gFile = s.mem ∧
    (∀ k v, mget s.mem.parties k = some v →
       mget (loadData (saveData s ts).disk.pFile (saveData s ts).disk.aFile
         (saveData s ts).disk.gFile).parties k = some v) ∧
    (∀ k v, mget s.mem.assignments k = some v →
       mget (loadData (saveData s ts).disk.pFile (saveData s ts).disk.aFile
         (saveData s ts).disk.gFile).assignments k = some v) ∧
    (∀ k v, mget s.mem.guestLinks k = some v →
       mget (loadData (saveData s ts).disk.pFile (saveData s ts).disk.aFile
         (saveData s ts).disk.gFile).guestLinks k = some v) := by
  have hsave : saveData s ts =
      { mem := s.mem,
        disk := ⟨some (some (.jobj s.mem.parties)),
                 some (some (.jobj s.mem.assignments)),
                 some (some (.jobj s.mem.guestLinks))⟩,
        backups := s.backups ++ backupsOf s.disk ts,
        flag := false } := by
    unfold saveData
    rw [if_neg (by rw [hflag]; exact Bool.false_ne_true)]
  have hload : loadData (saveData s ts).disk.pFile (saveData s ts).disk.aFile
      (saveData s ts).disk.gFile = s.mem := by
    rw [hsave]
    show loadData (some (some (.jobj s.mem.parties)))
      (some (some (.jobj s.mem.assignments)))
      (some (some (.jobj s.mem.guestLinks))) = s.mem
    unfold loadData parseFile objEntries
    dsimp only
    rw [loadStore_eq _ hp, loadStore_eq _ ha, loadStore_eq _ hg]
  refine ⟨hload, ?_, ?_, ?_⟩ <;> intro k v hkv <;> rw [hload] <;> exact hkv

/-- Witness for C8 on a concrete idle state holding one entry per store. -/
theorem c8_save_load_round_trip_witness :
    sysIdle.flag = false ∧
    (mkeys sysIdle.mem.parties).Nodup ∧
    (mkeys sysIdle.mem.assignments).Nodup ∧
    (mkeys sysIdle.mem.guestLinks).Nodup ∧
    loadData (saveData sysIdle "ts").disk.pFile (saveData sysIdle "ts").disk.aFile
      (saveData sysIdle "ts").disk.gFile = sysIdle.mem :=
  ⟨rfl, by decide, by decide, by decide,
   (c8_save_load_round_trip sysIdle "ts" rfl (by decide) (by decide) (by decide)).1⟩

/-!
Inversion of a successful party creation, and where guest links can come
from.
-/

theorem createParty_ok_inv (st : St) (n b c : String) (gl : List String)
    (pid : String) (gids : List String) (ts : String) (st' : St)
    (r : CreateResp)
    (h : createParty st n b c (some gl) pid gids ts = (st', .ok r)) :
    r.party = ⟨pid, sanitizeString n 100, sanitizeString b 50, sanitizeString c 500, gl.map (fun g => sanitizeString g 50), ts⟩ ∧
    st' = { st with
            parties := mset st.parties pid r.party,
            guestLinks := ((gl.map (fun g => sanitizeString g 50)).zip gids).foldl (fun m p => mset m p.2 ⟨pid, p.1⟩) st.guestLinks } := by
  unfold createParty at h
  dsimp only at h
  by_cases h1 : n = "" ∨ gl.length < 2
  · rw [if_pos h1] at h
    simp at h
  · rw [if_neg h1] at h
    by_cases h2 : gl.length > 50
    · rw [if_pos h2] at h
      simp at h
    · rw [if_neg h2] at h
      by_cases h3 : sanitizeString n 100 = ""
      · rw [if_pos h3] at h
        simp at h
      · rw [if_neg h3] at h
        by_cases h4 : (gl.any fun g => decide (sanitizeString g 50 = "")) = true
        · rw [if_pos h4] at h
          simp at h
        · rw [if_neg h4] at h
          by_cases h5 : ¬ (gl.map (fun g => sanitizeString g 50)).Nodup
          · rw [if_pos h5] at h
            simp at h
          · rw [if_neg h5] at h
            rw [Prod.mk.injEq] at h
            obtain ⟨hst, hr⟩ := h
            rw [Except.ok.injEq] at hr
            constructor
            · rw [← hr]
            · rw [← hst, ← hr]

theorem foldl_links_mem (pid : String) : ∀ (l : List (String × String))
    (m0 : List (String × GuestLink)) (gid : String) (lk : GuestLink),
    mget (l.foldl (fun m p => mset m p.2 ⟨pid, p.1⟩) m0) gid = some lk →
    mget m0 gid = some lk ∨ ∃ p ∈ l, lk = (⟨pid, p.1⟩ : GuestLink)
  | [], _, _, _, h => Or.inl h
  | p :: l', m0, gid, lk, h => by
    rcases foldl_links_mem pid l' (mset m0 p.2 ⟨pid, p.1⟩) gid lk h with
      h1 | ⟨q, hq, hlk⟩
    · by_cases hg : gid = p.2
      · subst hg
        rw [mget_mset_self] at h1
        rw [Option.some_inj] at h1
        exact Or.inr ⟨p, List.mem_cons_self p l', h1.symm⟩
      · rw [mget_mset_ne _ _ _ _ hg] at h1
        exact Or.inl h1
    · exact Or.inr ⟨q, List.mem_cons_of_mem p hq, hlk⟩

/-- C10 as stated is false: the stored fields are capped and stripped of
the five unsafe characters, but they are not always trimmed. Removing the
unsafe characters happens after trimming, so a name whose raw form starts
with an unsafe character followed by spaces is stored with leading
whitespace: creating a party named with a left angle bracket and two
spaces before the letter a stores the name as two spaces followed by a,
which its own trim does not fix. -/
theorem c10_counterexample_leading_whitespace :
    mget (createParty emptySt "<  a" "" "" (some ["Ann", "Bo"]) pid0
        [gidA, gidB] "ts").1.parties pid0 =
      some ⟨pid0, "  a", "", "", ["Ann", "Bo"], "ts"⟩ ∧
    jsTrim "  a" ≠ "  a" :=
  ⟨by decide, by decide⟩

/-- C10 amended: every Party and GuestLink stored by createParty contains
only sanitized strings — name, budget, criteria and each guest name are
the sanitizer's output on the raw input, hence capped at 100, 50, 500 and
50 characters respectively and free of the characters removed by the
sanitizer; they may, however, retain leading or trailing whitespace
uncovered by character removal or capping. -/
theorem c10_amended_stored_fields_capped_and_stripped (st : St)
    (n b c : String) (gl : List String) (pid : String) (gids : List String)
    (ts : String) (st' : St) (r : CreateResp)
    (h : createParty st n b c (some gl) pid gids ts = (st', .ok r)) :
    (r.party.name = sanitizeString n 100 ∧ r.party.name.length ≤ 100 ∧
       ∀ ch ∈ r.party.name.toList, ch ∉ badChars) ∧
    (r.party.budget = sanitizeString b 50 ∧ r.party.budget.length ≤ 50 ∧
       ∀ ch ∈ r.party.budget.toList, ch ∉ badChars) ∧
    (r.party.criteria = sanitizeString c 500 ∧ r.party.criteria.length ≤ 500 ∧
       ∀ ch ∈ r.party.criteria.toList, ch ∉ badChars) ∧
    (∀ g ∈ r.party.guests, g.length ≤ 50 ∧ ∀ ch ∈ g.toList, ch ∉ badChars) ∧
    mget st'.parties pid = some r.party ∧
    (∀ gid lk, mget st'.guestLinks gid = some lk →
       mget st.guestLinks gid = some lk ∨
       (lk.partyId = pid ∧ lk.guestName ∈ r.party.guests)) := by
  obtain ⟨hparty, hst⟩ := createParty_ok_inv st n b c gl pid gids ts st' r h
  refine ⟨?_, ?_, ?_, ?_, ?_, ?_⟩
  · rw [hparty]
    exact ⟨rfl, sanitizeString_length_le n 100,
           fun ch hch => sanitizeString_no_bad n 100 ch hch⟩
  · rw [hparty]
    exact ⟨rfl, sanitizeString_length_le b 50,
           fun ch hch => sanitizeString_no_bad b 50 ch hch⟩
  · rw [hparty]
    exact ⟨rfl, sanitizeString_length_le c 500,
           fun ch hch => sanitizeString_no_bad c 500 ch hch⟩
  · rw [hparty]
    intro g hg
    obtain ⟨g0, hg0, rfl⟩ := List.mem_map.mp hg
    exact ⟨sanitizeString_length_le g0 50,
           fun ch hch => sanitizeString_no_bad g0 50 ch hch⟩
  · rw [hst]
    exact mget_mset_self _ _ _
  · rw [hst]
    intro gid lk hlk
    rcases foldl_links_mem pid _ _ _ _ hlk with h1 | ⟨p, hp, rfl⟩
    · exact Or.inl h1
    · refine Or.inr ⟨rfl, ?_⟩
      rw [hparty]
      exact (List.of_mem_zip hp).1

/-- Witness for the amended C10 on a concrete successful creation. -/
theorem c10_amended_stored_fields_witness :
    createParty emptySt "Office" "20" "gifts" (some ["Ann", "Bo"]) pid0
      [gidA, gidB] "ts" = (stOne, .ok respLit) ∧
    mget stOne.parties pid0 = some respLit.party ∧
    respLit.party.name.length ≤ 100 ∧
    (∀ ch ∈ respLit.party.name.toList, ch ∉ badChars) := by
  have hEq : createParty emptySt "Office" "20" "gifts" (some ["Ann", "Bo"])
      pid0 [gidA, gidB] "ts" = (stOne, .ok respLit) := by rfl
  have hmain := c10_amended_stored_fields_capped_and_stripped emptySt
    "Office" "20" "gifts" ["Ann", "Bo"] pid0 [gidA, gidB] "ts" stOne respLit hEq
  exact ⟨hEq, hmain.2.2.2.2.1, hmain.1.2.1, hmain.1.2.2⟩

/-- C6 as stated is false in one corner: a storage file that is present and
parseable but holds the JSON value null makes the entries enumeration
throw inside the load's try block, so the remaining stores are left empty
even when their own files are present, parseable and non-empty. Here the
parties file holds null and the assignments file holds one entry; load
leaves every map empty although the assignments entries would load to
that entry on their own. -/
theorem c6_counterexample_null_file :
    loadData (some (some .jnull)) (some (some (.jobj [("k", .jstr "v")])))
        none = ⟨[], [], []⟩ ∧
    objEntries (parseFile (some (some (.jobj [("k", .jstr "v")])))) =
      some [("k", .jstr "v")] ∧
    loadStore [("k", .jstr "v")] = [("k", .jstr "v")] :=
  ⟨rfl, rfl, rfl⟩

/-- C6 amended: load is a total function of the three files — startup
never aborts — and, provided no file parses to JSON null (the one value
whose entries enumeration throws), each map is populated from its own
file, with an absent file and a present-but-unparseable file both read as
the empty object. When a file does parse to null, that store and the ones
loaded after it are left empty. -/
theorem c6_amended_load_per_store (fp fa fg : FileSt)
    (hp : (objEntries (parseFile fp)).isSome = true)
    (ha : (objEntries (parseFile fa)).isSome = true)
    (hg : (objEntries (parseFile fg)).isSome = true) :
    loadData fp fa fg =
      ⟨loadStore ((objEntries (parseFile fp)).getD []),
       loadStore ((objEntries (parseFile fa)).getD []),
       loadStore ((objEntries (parseFile fg)).getD [])⟩ ∧
    parseFile none = .jobj [] ∧
    parseFile (some none) = .jobj [] ∧
    objEntries (.jobj []) = some [] ∧
    loadStore [] = [] := by
  obtain ⟨ep, hep⟩ := Option.isSome_iff_exists.mp hp
  obtain ⟨ea, hea⟩ := Option.isSome_iff_exists.mp ha
  obtain ⟨eg, heg⟩ := Option.isSome_iff_exists.mp hg
  refine ⟨?_, rfl, rfl, rfl, rfl⟩
  unfold loadData
  rw [hep, hea, heg]
  rfl

/-- Witness for the amended C6: one object file with an entry, one absent
file, one corrupt file. -/
theorem c6_amended_load_per_store_witness :
    ((objEntries (parseFile (some (some (.jobj [("p", .jstr "P")]))))).isSome = true ∧
     (objEntries (parseFile (none : FileSt))).isSome = true ∧
     (objEntries (parseFile (some (none : Option JVal)))).isSome = true) ∧
    loadData (some (some (.jobj [("p", .jstr "P")]))) none (some none) =
      ⟨loadStore ((objEntries (parseFile (some (some (.jobj [("p", .jstr "P")]))))).getD []),
       loadStore ((objEntries (parseFile (none : FileSt))).getD []),
       loadStore ((objEntries (parseFile (some (none : Option JVal)))).getD [])⟩ :=
  ⟨⟨rfl, rfl, rfl⟩,
   (c6_amended_load_per_store (some (some (.jobj [("p", .jstr "P")]))) none
     (some none) rfl rfl rfl).1⟩
